import Mathlib

/-!
Verification of the productivity-dashboard state container
(`src/context/AppContext.jsx` and its hardened variant).

Shallow embedding conventions:
* ISO date strings (`"2025-01-15"`) are modelled as integers (day numbers);
  for valid ISO dates, JavaScript lexicographic string comparison coincides
  with the chronological order, which is `Int` order here.  Walking one day
  back (`checkDate.setDate(checkDate.getDate() - 1)`) is subtraction by 1.
* Month keys (`dateStr.slice(0, 7)`) are modelled by an abstract function
  `monthOf : Int → Int` carried as an argument: the only property the code
  uses is that a date determines its month key.
* JavaScript objects used as string-keyed maps (`data`, `month.days`, the
  heatmap result) are association lists `List (Int × _)`; assignment
  `obj[k] = v` updates the existing entry in place or appends a new one,
  which is what `setA` does, preserving JS key ordering.
* `Math.round(x)` on the nonnegative rationals produced here is
  floor(x + 1/2); on naturals `num/den` this is `(2*num + den) / (2*den)`
  (`jsRound`), proved equal to the rational rounding in `jsRound_eq_floor`.
* Wall-clock reads (`Date.now()`, `new Date().toISOString()`) become
  explicit `now`/`today` parameters.
-/

namespace PD

/-- A task object as created by `addTask`/`setRoutineTasks` in
`AppContext.jsx` (timestamps modelled as integers, absent `completedAt`
as `none`). -/
structure Task where
  id : Int
  name : String
  category : String
  completed : Bool
  createdAt : Int
  completedAt : Option Int
  isRoutine : Bool
deriving DecidableEq, Repr

/-- A day record, `initDayData()` shape: task list, stored progress
percentage, lock flag and lock timestamp. -/
structure DayRec where
  tasks : List Task
  progress : Nat
  locked : Bool
  lockedAt : Option Int
deriving DecidableEq, Repr

/-- A routine template, as stored in `month.routines`. -/
structure Routine where
  name : String
  category : String
deriving DecidableEq, Repr

/-- A month record, `initMonthData()` shape.  `days` is the string-keyed
object `month.days` as an association list keyed by date. -/
structure MonthRec where
  goals : List String
  routines : List Routine
  days : List (Int × DayRec)
  setupComplete : Bool
deriving DecidableEq, Repr

/-- The top-level `data` state: month key → month record. -/
abbrev Data := List (Int × MonthRec)

/-- A long-term goal object as created by `addGoal`. -/
structure Goal where
  id : Int
  title : String
  progressType : String
  progressTarget : Int
  progressCurrent : Int
  state : String
  endDate : Int
deriving DecidableEq, Repr

/-- The slice of provider state the verified claims touch. -/
structure AppState where
  data : Data
  goals : List Goal
  currentDate : Int
  currentMonth : Int
  selectedDate : Int
  isLoading : Bool
deriving Repr

/-- Key lookup in a JS object modelled as an association list
(`obj[k]`, `undefined` becoming `none`). -/
def lookupA {β : Type} : List (Int × β) → Int → Option β
  | [], _ => none
  | (k, v) :: rest, key => if k = key then some v else lookupA rest key

/-- Key assignment in a JS object modelled as an association list
(`obj[k] = v`): overwrite in place if present, append otherwise. -/
def setA {β : Type} : List (Int × β) → Int → β → List (Int × β)
  | [], key, val => [(key, val)]
  | (k, v) :: rest, key, val =>
    if k = key then (k, val) :: rest else (k, v) :: setA rest key val

/-- `initMonthData()` from `AppContext.jsx`. -/
def initMonthData : MonthRec :=
  { goals := [], routines := [], days := [], setupComplete := false }

/-- `initDayData()` from `AppContext.jsx`. -/
def initDayData : DayRec :=
  { tasks := [], progress := 0, locked := false, lockedAt := none }

/-- `Math.round(num/den)` for naturals with `den > 0`: half-up rounding. -/
def jsRound (num den : Nat) : Nat := (2 * num + den) / (2 * den)

/-- `calculateProgress(tasks)` from `AppContext.jsx`:
`Math.round((completed / tasks.length) * 100)`, and `0` for an empty
list. -/
def calculateProgress (tasks : List Task) : Nat :=
  if tasks.length = 0 then 0
  else jsRound (100 * (tasks.filter (fun t => t.completed)).length) tasks.length

/-- `data[month]?.days[dateStr]` — the optional-chained day lookup used
throughout `AppContext.jsx`. -/
def dayLookup (monthOf : Int → Int) (data : Data) (date : Int) : Option DayRec :=
  match lookupA data (monthOf date) with
  | none => none
  | some m => lookupA m.days date

/-- `addTask(taskName, category, targetDate)` from `AppContext.jsx`,
acting on `data` with the target date resolved.  Missing month/day
records are initialised; a locked day returns the previous state
unchanged; the new task is appended and the day progress recomputed. -/
def addTask (monthOf : Int → Int) (now : Int) (taskName category : String)
    (date : Int) (data : Data) : Data :=
  let month := monthOf date
  let m := (lookupA data month).getD initMonthData
  let d := (lookupA m.days date).getD initDayData
  if d.locked then data
  else
    let tasks := d.tasks ++
      [{ id := now, name := taskName, category := category, completed := false,
         createdAt := now, completedAt := none, isRoutine := false }]
    let d2 := { d with tasks := tasks, progress := calculateProgress tasks }
    setA data month { m with days := setA m.days date d2 }

/-- Toggle of the first task with the given id
(`day.tasks.find(t => t.id === taskId)` then in-place mutation). -/
def toggleFirst (now : Int) (taskId : Int) : List Task → List Task
  | [] => []
  | t :: ts =>
    if t.id = taskId then
      { t with completed := !t.completed,
               completedAt := if !t.completed then some now else none } :: ts
    else t :: toggleFirst now taskId ts

/-- `toggleTask(taskId, targetDate)` from `AppContext.jsx`: no-op on a
missing or locked day; otherwise the first matching task is toggled and
the day progress recomputed (only when a task was found). -/
def toggleTask (monthOf : Int → Int) (now taskId : Int) (date : Int)
    (data : Data) : Data :=
  let month := monthOf date
  match lookupA data month with
  | none => data
  | some m =>
    match lookupA m.days date with
    | none => data
    | some d =>
      if d.locked then data
      else if (d.tasks.find? (fun t => t.id == taskId)).isSome then
        let tasks := toggleFirst now taskId d.tasks
        let d2 := { d with tasks := tasks, progress := calculateProgress tasks }
        setA data month { m with days := setA m.days date d2 }
      else data

/-- `Object.assign(task, updates)` applied to the first task with the
given id; `upd` is the field update the caller passed. -/
def editFirst (taskId : Int) (upd : Task → Task) : List Task → List Task
  | [] => []
  | t :: ts => if t.id = taskId then upd t :: ts else t :: editFirst taskId upd ts

/-- `editTask(taskId, updates, targetDate)` from `AppContext.jsx`: no-op
on a missing or locked day; otherwise the first matching task is
updated.  Note: the source does NOT recompute `day.progress` here. -/
def editTask (monthOf : Int → Int) (taskId : Int) (upd : Task → Task)
    (date : Int) (data : Data) : Data :=
  let month := monthOf date
  match lookupA data month with
  | none => data
  | some m =>
    match lookupA m.days date with
    | none => data
    | some d =>
      if d.locked then data
      else
        let d2 := { d with tasks := editFirst taskId upd d.tasks }
        setA data month { m with days := setA m.days date d2 }

/-- `deleteTask(taskId, targetDate)` from `AppContext.jsx`: no-op on a
missing or locked day; otherwise the task is filtered out and the day
progress recomputed. -/
def deleteTask (monthOf : Int → Int) (taskId : Int) (date : Int)
    (data : Data) : Data :=
  let month := monthOf date
  match lookupA data month with
  | none => data
  | some m =>
    match lookupA m.days date with
    | none => data
    | some d =>
      if d.locked then data
      else
        let tasks := d.tasks.filter (fun t => t.id != taskId)
        let d2 := { d with tasks := tasks, progress := calculateProgress tasks }
        setA data month { m with days := setA m.days date d2 }

/-- `lockDay(dateStr)` from `AppContext.jsx`: if the day record exists
and is not already locked, set `locked`, record `lockedAt`, and
recompute `progress` from the task list. -/
def lockDay (monthOf : Int → Int) (now : Int) (dateStr : Int)
    (data : Data) : Data :=
  let month := monthOf dateStr
  match lookupA data month with
  | none => data
  | some m =>
    match lookupA m.days dateStr with
    | none => data
    | some d =>
      if d.locked then data
      else
        let d2 := { d with locked := true, lockedAt := some now,
                             progress := calculateProgress d.tasks }
        setA data month { m with days := setA m.days dateStr d2 }

/-- `handleMidnight()` from `AppContext.jsx`: lock the previous current
date, then advance `currentDate`, `currentMonth` (the new date's month)
and `selectedDate` to the new day. -/
def handleMidnight (monthOf : Int → Int) (now newDate : Int)
    (s : AppState) : AppState :=
  { s with
    data := lockDay monthOf now s.currentDate s.data,
    currentDate := newDate,
    currentMonth := monthOf newDate,
    selectedDate := newDate }

/-- Provider state at mount: `useState({})`, `useState([])`,
`useState(true)` and the current date. -/
def initState (monthOf : Int → Int) (today : Int) : AppState :=
  { data := [], goals := [], currentDate := today,
    currentMonth := monthOf today, selectedDate := today, isLoading := true }

/-- The load effect of `AppContext.jsx` (lines 121–137).  `savedData` /
`savedGoals` model `localStorage.getItem` plus `JSON.parse`: `none` for
an absent key, `some (Except.error ())` for a payload whose parse
throws, `some (Except.ok v)` for a successful parse.  A thrown parse
error aborts the rest of the `try` block (so the goals payload is never
read after the data payload throws), is swallowed by `catch`, and
`setIsLoading(false)` runs afterwards in every case. -/
def loadEffect (savedData : Option (Except Unit Data))
    (savedGoals : Option (Except Unit (List Goal))) (s : AppState) : AppState :=
  let afterData : AppState × Bool :=
    match savedData with
    | none => (s, false)
    | some (Except.ok d) => ({ s with data := d }, false)
    | some (Except.error _) => (s, true)
  let afterGoals : AppState :=
    if afterData.2 then afterData.1
    else
      match savedGoals with
      | none => afterData.1
      | some (Except.ok g) => { afterData.1 with goals := g }
      | some (Except.error _) => afterData.1
  { afterGoals with isLoading := false }

/-- One pass of the `while (streak < 365)` loop of `calculateStreak`:
the `fuel` argument is the remaining loop allowance `365 - streak`. -/
def streakLoop (monthOf : Int → Int) (data : Data) : Nat → Int → Nat
  | 0, _ => 0
  | fuel + 1, checkDate =>
    match dayLookup monthOf data checkDate with
    | none => 0
    | some day =>
      if day.progress < 50 then 0
      else streakLoop monthOf data fuel (checkDate - 1) + 1

/-- `calculateStreak` from `AppContext.jsx`: walk backwards from
yesterday while the day record exists with progress ≥ 50, for at most
365 iterations. -/
def calculateStreak (monthOf : Int → Int) (data : Data) (today : Int) : Nat :=
  streakLoop monthOf data 365 (today - 1)

/-- A date qualifies for the streak: its day record exists and its
stored progress is at least 50. -/
def qualifies (monthOf : Int → Int) (data : Data) (date : Int) : Bool :=
  match dayLookup monthOf data date with
  | none => false
  | some day => decide (50 ≤ day.progress)

/-- `monthProgress` from `AppContext.jsx`: average the stored progress
over `Object.values(monthData.days)` filtered to days with at least one
task; 0 when the month record is missing or no day has tasks. -/
def monthProgress (data : Data) (currentMonth : Int) : Nat :=
  match lookupA data currentMonth with
  | none => 0
  | some monthData =>
    let daysWithTasks :=
      (monthData.days.map Prod.snd).filter (fun d => decide (0 < d.tasks.length))
    if daysWithTasks.length = 0 then 0
    else jsRound (daysWithTasks.foldl (fun sum d => sum + d.progress) 0)
      daysWithTasks.length

/-- Formalisation of the spec sentence for the month progress: the
rounded (half-up, on rationals) arithmetic mean of the stored progress
values over exactly the day records of the month with a non-empty task
list, and 0 when there are none or the month record is missing. -/
def monthProgressSpec (data : Data) (currentMonth : Int) : Nat :=
  match lookupA data currentMonth with
  | none => 0
  | some monthData =>
    let ps := ((monthData.days.map Prod.snd).filter
      (fun d => decide (d.tasks ≠ []))).map DayRec.progress
    if ps = [] then 0
    else ⌊(ps.sum : ℚ) / ps.length + 1 / 2⌋₊

/-- One heatmap cell: `{ progress, tasks, completed, locked }`. -/
structure HeatEntry where
  progress : Nat
  tasks : Nat
  completed : Nat
  locked : Bool
deriving DecidableEq, Repr

/-- The cell `heatmapData` builds for one day record. -/
def heatmapEntry (d : DayRec) : HeatEntry :=
  { progress := d.progress, tasks := d.tasks.length,
    completed := (d.tasks.filter (fun t => t.completed)).length,
    locked := d.locked }

/-- Inner loop of `heatmapData`: `Object.entries(monthData.days).forEach`
writing `result[date] = {...}`. -/
def heatmapDays (acc : List (Int × HeatEntry)) :
    List (Int × DayRec) → List (Int × HeatEntry)
  | [] => acc
  | (date, d) :: rest => heatmapDays (setA acc date (heatmapEntry d)) rest

/-- Outer loop of `heatmapData`: `Object.entries(data).forEach`. -/
def heatmapMonths (acc : List (Int × HeatEntry)) :
    List (Int × MonthRec) → List (Int × HeatEntry)
  | [] => acc
  | (_, m) :: rest => heatmapMonths (heatmapDays acc m.days) rest

/-- `heatmapData` from `AppContext.jsx`. -/
def heatmapData (data : Data) : List (Int × HeatEntry) :=
  heatmapMonths [] data

/-- The first day record stored for a date across the month records, in
object order — the "day record for that date" of the spec. -/
def findDayGlobal : Data → Int → Option DayRec
  | [], _ => none
  | (_, m) :: rest, date =>
    match lookupA m.days date with
    | some d => some d
    | none => findDayGlobal rest date

/-- All date keys appearing in any month record's `days` map, in order. -/
def allDates : Data → List Int
  | [] => []
  | (_, m) :: rest => m.days.map Prod.fst ++ allDates rest

/-- `isLocked(dateStr)` from `AppContext.jsx`: the current date is never
locked; otherwise a stored lock flag or any date before the current one
counts as locked. -/
def isLocked (monthOf : Int → Int) (data : Data) (currentDate dateStr : Int) : Bool :=
  if dateStr = currentDate then false
  else ((dayLookup monthOf data dateStr).map DayRec.locked).getD false
    || decide (dateStr < currentDate)

/-- `updateGoalProgress(goalId, amount)` from `AppContext.jsx`. -/
def updateGoalProgress (goalId amount : Int) (goals : List Goal) : List Goal :=
  goals.map fun g =>
    if g.id ≠ goalId then g
    else
      let newProgress := min g.progressTarget (max 0 (g.progressCurrent + amount))
      let newState := if g.progressTarget ≤ newProgress then "completed" else g.state
      { g with progressCurrent := newProgress, state := newState }

/-- `setGoalProgress(goalId, value)` from `AppContext.jsx`. -/
def setGoalProgress (goalId value : Int) (goals : List Goal) : List Goal :=
  goals.map fun g =>
    if g.id ≠ goalId then g
    else
      let newProgress := min g.progressTarget (max 0 value)
      let newState := if g.progressTarget ≤ newProgress then "completed" else g.state
      { g with progressCurrent := newProgress, state := newState }

/-- The outcome claimed for the goal-progress operations: untargeted
goals are untouched; the targeted goal keeps its identity and target,
its current progress is clamped into `[0, target]`, and its state is set
to `completed` exactly when the progress reaches the target (otherwise
it keeps its old state). -/
def goalListOutcome (goalId : Int) (old new : List Goal) : Prop :=
  new.length = old.length ∧
  ∀ i (h1 : i < old.length) (h2 : i < new.length),
    ((old.get ⟨i, h1⟩).id ≠ goalId → new.get ⟨i, h2⟩ = old.get ⟨i, h1⟩) ∧
    ((old.get ⟨i, h1⟩).id = goalId →
      (new.get ⟨i, h2⟩).id = (old.get ⟨i, h1⟩).id ∧
      (new.get ⟨i, h2⟩).progressTarget = (old.get ⟨i, h1⟩).progressTarget ∧
      0 ≤ (new.get ⟨i, h2⟩).progressCurrent ∧
      (new.get ⟨i, h2⟩).progressCurrent ≤ (new.get ⟨i, h2⟩).progressTarget ∧
      (new.get ⟨i, h2⟩).state =
        (if (new.get ⟨i, h2⟩).progressCurrent = (new.get ⟨i, h2⟩).progressTarget
         then "completed" else (old.get ⟨i, h1⟩).state))

/-- The stored-progress invariant: every day record's `progress` field
equals `calculateProgress` of its task list. -/
def progInv (data : Data) : Prop :=
  ∀ p ∈ data, ∀ q ∈ p.2.days, q.2.progress = calculateProgress q.2.tasks

instance (data : Data) : Decidable (progInv data) := by
  unfold progInv
  infer_instance

/-- Data states reachable from the initial empty object through the task
operations and `lockDay`; `P` constrains the field updates `editTask` is
invoked with (`fun _ => True` places no constraint). -/
inductive Reach (monthOf : Int → Int) (P : (Task → Task) → Prop) : Data → Prop
  | init : Reach monthOf P []
  | step_add (now : Int) (taskName category : String) (date : Int) {d : Data} :
      Reach monthOf P d → Reach monthOf P (addTask monthOf now taskName category date d)
  | step_toggle (now taskId date : Int) {d : Data} :
      Reach monthOf P d → Reach monthOf P (toggleTask monthOf now taskId date d)
  | step_edit (taskId : Int) (upd : Task → Task) (date : Int) {d : Data} :
      P upd → Reach monthOf P d → Reach monthOf P (editTask monthOf taskId upd date d)
  | step_delete (taskId date : Int) {d : Data} :
      Reach monthOf P d → Reach monthOf P (deleteTask monthOf taskId date d)
  | step_lock (now dateStr : Int) {d : Data} :
      Reach monthOf P d → Reach monthOf P (lockDay monthOf now dateStr d)

/-- `calculateProgress` of the original `AppContext.jsx`, lifted to task
arrays that may contain `null` entries (`none`): the filter callback
`t => t.completed` dereferences each element, so a `null` element makes
the call throw (`Except.error ()`). -/
def countCompletedOrig : List (Option Task) → Except Unit Nat
  | [] => Except.ok 0
  | none :: _ => Except.error ()
  | some t :: rest =>
    (countCompletedOrig rest).map fun n => if t.completed then n + 1 else n

/-- Original `calculateProgress` on possibly-`null` elements. -/
def calculateProgressOrig (tasks : List (Option Task)) : Except Unit Nat :=
  if tasks.length = 0 then Except.ok 0
  else (countCompletedOrig tasks).map fun completed =>
    jsRound (100 * completed) tasks.length

/-- `calculateProgress` of the hardened variant (`part_005`): the filter
callback `t => t && t.completed` skips `null` elements instead of
throwing. -/
def calculateProgressHardened (tasks : List (Option Task)) : Nat :=
  if tasks.length = 0 then 0
  else jsRound
    (100 * (tasks.filter (fun t => match t with
      | some u => u.completed
      | none => false)).length)
    tasks.length

/-- Example task, completed. -/
def exTaskDone : Task :=
  { id := 0, name := "done", category := "work", completed := true,
    createdAt := 0, completedAt := some 0, isRoutine := false }

/-- Example day record with full progress (stored progress consistent
with its single completed task). -/
def exDayFull : DayRec :=
  { tasks := [exTaskDone], progress := 100, locked := true, lockedAt := some 0 }

/-- Example month whose day 5 is locked. -/
def exLocked : Data :=
  [(0, { goals := [], routines := [], days := [(5, exDayFull)],
         setupComplete := false })]

/-- Example month whose day 5 is a not-yet-locked day with one completed
task and one open task. -/
def exTaskOpen : Task :=
  { id := 1, name := "open", category := "personal", completed := false,
    createdAt := 0, completedAt := none, isRoutine := false }

/-- Unlocked day: one completed and one open task, progress 50. -/
def exDayOpen : DayRec :=
  { tasks := [exTaskDone, exTaskOpen], progress := 50, locked := false,
    lockedAt := none }

/-- Data with an unlocked day record at date 5. -/
def exUnlocked : Data :=
  [(0, { goals := [], routines := [], days := [(5, exDayOpen)],
         setupComplete := false })]

/-- A month-key function for concrete examples: 31 dates per month. -/
def monthOf31 (d : Int) : Int := d / 31

/-- Month `m` of the 366-day streak fixture: dates `31*m .. 31*m+30`
(clipped at 365), each a fully completed day. -/
def streakMonth (m : Nat) : MonthRec :=
  { goals := [], routines := [],
    days := (List.range 31).filterMap (fun j =>
      if 31 * m + j ≤ 365 then some (((31 * m + j : Nat) : Int), exDayFull)
      else none),
    setupComplete := false }

/-- A data state holding 366 consecutive fully completed days
(dates 0..365). -/
def streakData366 : Data :=
  (List.range 12).map (fun (m : Nat) => ((m : Int), streakMonth m))

/-- A small streak fixture: only date 4 has a (qualifying) day record. -/
def streakSmall : Data :=
  [(0, { goals := [], routines := [], days := [(4, exDayFull)],
         setupComplete := false })]

/-- Two-month heatmap fixture. -/
def exHeat : Data :=
  [(0, { goals := [], routines := [], days := [(1, exDayOpen)],
         setupComplete := false }),
   (1, { goals := [], routines := [], days := [(40, exDayFull)],
         setupComplete := false })]

/-- A goal with a negative `progressTarget` (reachable through
`updateGoal`, whose `updates` object is unconstrained). -/
def gNeg : Goal :=
  { id := 1, title := "g", progressType := "count", progressTarget := -1,
    progressCurrent := 0, state := "active", endDate := 0 }

/-- A well-formed active goal. -/
def gPos : Goal :=
  { id := 2, title := "w", progressType := "count", progressTarget := 10,
    progressCurrent := 3, state := "active", endDate := 30 }

/-- Lookup after assignment: the assigned key reads back the new value,
every other key is unaffected. -/
theorem lookupA_setA {β : Type} (l : List (Int × β)) (key j : Int) (val : β) :
    lookupA (setA l key val) j = if j = key then some val else lookupA l j := by
  induction l with
  | nil =>
    by_cases h : j = key
    · simp [setA, lookupA, h]
    · simp [setA, lookupA, h, Ne.symm h]
  | cons q rest ih =>
    obtain ⟨k, v⟩ := q
    by_cases hk : k = key
    · subst hk
      by_cases hj : j = k
      · simp [setA, lookupA, hj]
      · simp [setA, lookupA, hj, Ne.symm hj]
    · by_cases hj : k = j
      · have hjk : ¬ j = key := fun h2 => hk (hj.trans h2)
        simp [setA, lookupA, hk, hj, hjk]
      · simp [setA, lookupA, hk, hj, ih]

/-- Every entry of `setA l key val` is the new binding or an old one. -/
theorem mem_setA {β : Type} {l : List (Int × β)} {key : Int} {val : β} :
    ∀ p ∈ setA l key val, p = (key, val) ∨ p ∈ l := by
  induction l with
  | nil => intro p hp; simp [setA] at hp; exact Or.inl hp
  | cons q rest ih =>
    obtain ⟨k, v⟩ := q
    intro p hp
    by_cases hk : k = key
    · subst hk
      simp [setA] at hp
      rcases hp with hp | hp
      · exact Or.inl (by simp [hp])
      · exact Or.inr (List.mem_cons_of_mem _ hp)
    · simp [setA, hk] at hp
      rcases hp with hp | hp
      · exact Or.inr (by simp [hp])
      · rcases ih p hp with h | h
        · exact Or.inl h
        · exact Or.inr (List.mem_cons_of_mem _ h)

/-- A successful lookup exhibits membership. -/
theorem lookupA_mem {β : Type} {l : List (Int × β)} {key : Int} {v : β}
    (h : lookupA l key = some v) : (key, v) ∈ l := by
  induction l with
  | nil => simp [lookupA] at h
  | cons q rest ih =>
    obtain ⟨k, w⟩ := q
    by_cases hk : k = key
    · subst hk
      simp [lookupA] at h
      simp [h]
    · simp [lookupA, hk] at h
      exact List.mem_cons_of_mem _ (ih h)

/-- A lookup misses exactly when the key is absent. -/
theorem lookupA_eq_none_iff {β : Type} {l : List (Int × β)} {key : Int} :
    lookupA l key = none ↔ key ∉ l.map Prod.fst := by
  induction l with
  | nil => simp [lookupA]
  | cons q rest ih =>
    obtain ⟨k, w⟩ := q
    by_cases hk : k = key
    · subst hk; simp [lookupA]
    · simp [lookupA, hk, ih, Ne.symm hk]

/-- Claim C2 theorem.  A locked day record makes each task operation
targeting its date return the data state unchanged. -/
theorem locked_day_ops_unchanged (monthOf : Int → Int) (now taskId : Int)
    (taskName category : String) (upd : Task → Task) (date : Int) (data : Data)
    {m : MonthRec} {d : DayRec}
    (hm : lookupA data (monthOf date) = some m)
    (hd : lookupA m.days date = some d)
    (hlock : d.locked = true) :
    addTask monthOf now taskName category date data = data ∧
    toggleTask monthOf now taskId date data = data ∧
    editTask monthOf taskId upd date data = data ∧
    deleteTask monthOf taskId date data = data := by
  refine ⟨?_, ?_, ?_, ?_⟩ <;>
    simp [addTask, toggleTask, editTask, deleteTask, hm, hd, hlock]

/-- Witness for C2 at a concrete locked day. -/
theorem locked_day_ops_unchanged_witness :
    addTask (fun _ => 0) 9 "t" "other" 5 exLocked = exLocked ∧
    toggleTask (fun _ => 0) 9 7 5 exLocked = exLocked ∧
    editTask (fun _ => 0) 7 id 5 exLocked = exLocked ∧
    deleteTask (fun _ => 0) 7 5 exLocked = exLocked :=
  locked_day_ops_unchanged (fun _ => 0) 9 7 "t" "other" id 5 exLocked
    rfl rfl rfl

/-- Claim C3 theorem.  The midnight rollover locks the previous current
date's record (setting `locked`, recording `lockedAt`, recomputing its
progress from its unchanged task list) and advances `currentDate`,
`currentMonth` and `selectedDate` to the new day. -/
theorem handleMidnight_spec (monthOf : Int → Int) (now newDate : Int)
    (s : AppState) {m : MonthRec} {d : DayRec}
    (hm : lookupA s.data (monthOf s.currentDate) = some m)
    (hd : lookupA m.days s.currentDate = some d)
    (hlock : d.locked = false) :
    dayLookup monthOf (handleMidnight monthOf now newDate s).data s.currentDate =
      some { d with locked := true, lockedAt := some now,
                    progress := calculateProgress d.tasks } ∧
    (handleMidnight monthOf now newDate s).currentDate = newDate ∧
    (handleMidnight monthOf now newDate s).currentMonth = monthOf newDate ∧
    (handleMidnight monthOf now newDate s).selectedDate = newDate := by
  refine ⟨?_, rfl, rfl, rfl⟩
  simp [handleMidnight, lockDay, hm, hd, hlock, dayLookup, lookupA_setA]

/-- Witness for C3 at a concrete unlocked day. -/
theorem handleMidnight_spec_witness :
    dayLookup monthOf31
      (handleMidnight monthOf31 77 6
        { data := exUnlocked, goals := [], currentDate := 5, currentMonth := 0,
          selectedDate := 5, isLoading := false }).data 5 =
      some { exDayOpen with locked := true, lockedAt := some 77,
                            progress := calculateProgress exDayOpen.tasks } ∧
    (handleMidnight monthOf31 77 6
        { data := exUnlocked, goals := [], currentDate := 5, currentMonth := 0,
          selectedDate := 5, isLoading := false }).currentDate = 6 ∧
    (handleMidnight monthOf31 77 6
        { data := exUnlocked, goals := [], currentDate := 5, currentMonth := 0,
          selectedDate := 5, isLoading := false }).currentMonth = monthOf31 6 ∧
    (handleMidnight monthOf31 77 6
        { data := exUnlocked, goals := [], currentDate := 5, currentMonth := 0,
          selectedDate := 5, isLoading := false }).selectedDate = 6 :=
  handleMidnight_spec monthOf31 77 6
    { data := exUnlocked, goals := [], currentDate := 5, currentMonth := 0,
      selectedDate := 5, isLoading := false } rfl rfl rfl

/-- Claim C7 theorem.  When the persisted productivity payload fails
JSON parsing at startup, the `try` block aborts (so the state keeps its
defaults: empty data record, empty goals list) and the effect still
finishes by setting `isLoading` to `false`; nothing is raised to the
caller (the model is a total function). -/
theorem load_parse_failure_defaults (monthOf : Int → Int) (today : Int)
    (savedGoals : Option (Except Unit (List Goal))) :
    (loadEffect (some (Except.error ())) savedGoals (initState monthOf today)).data = [] ∧
    (loadEffect (some (Except.error ())) savedGoals (initState monthOf today)).goals = [] ∧
    (loadEffect (some (Except.error ())) savedGoals (initState monthOf today)).isLoading = false :=
  ⟨rfl, rfl, rfl⟩

/-- Claim C8 theorem.  `isLocked` reports the current date unlocked no
matter what is stored, and reports every strictly earlier date locked
even without any day record. -/
theorem isLocked_spec (monthOf : Int → Int) (data : Data)
    (currentDate dateStr : Int) :
    isLocked monthOf data currentDate currentDate = false ∧
    (dateStr < currentDate → isLocked monthOf data currentDate dateStr = true) := by
  constructor
  · simp [isLocked]
  · intro h
    simp [isLocked, ne_of_lt h, h]

/-- Witness for C8: the stored record at the current date 5 is locked,
yet `isLocked` answers `false` there; date 3 has no record, yet is
reported locked. -/
theorem isLocked_spec_witness :
    isLocked (fun _ => 0) exLocked 5 5 = false ∧
    isLocked (fun _ => 0) exLocked 5 3 = true :=
  ⟨(isLocked_spec (fun _ => 0) exLocked 5 3).1,
   (isLocked_spec (fun _ => 0) exLocked 5 3).2 (by decide)⟩

/-- The streak loop never exceeds its remaining fuel. -/
theorem streakLoop_le (monthOf : Int → Int) (data : Data) :
    ∀ (fuel : Nat) (d : Int), streakLoop monthOf data fuel d ≤ fuel := by
  intro fuel
  induction fuel with
  | zero => intro d; simp [streakLoop]
  | succ n ih =>
    intro d
    unfold streakLoop
    cases h : dayLookup monthOf data d with
    | none => simp
    | some day =>
      by_cases hp : day.progress < 50
      · simp [hp]
      · simpa [hp] using ih (d - 1)

/-- Every day inside the computed streak qualifies. -/
theorem streakLoop_qualifies (monthOf : Int → Int) (data : Data) :
    ∀ (fuel : Nat) (d : Int) (i : Nat), i < streakLoop monthOf data fuel d →
      qualifies monthOf data (d - (i : Int)) = true := by
  intro fuel
  induction fuel with
  | zero => intro d i hi; simp [streakLoop] at hi
  | succ n ih =>
    intro d i hi
    unfold streakLoop at hi
    cases h : dayLookup monthOf data d with
    | none => rw [h] at hi; simp at hi
    | some day =>
      rw [h] at hi
      by_cases hp : day.progress < 50
      · simp [hp] at hi
      · simp only [hp, if_false] at hi
        cases i with
        | zero => simp [qualifies, h, Nat.not_lt.mp hp]
        | succ j =>
          have hj : j < streakLoop monthOf data n (d - 1) := by omega
          have := ih (d - 1) j hj
          have harith : d - ((j + 1 : Nat) : Int) = d - 1 - (j : Int) := by
            push_cast; ring
          rw [harith]
          exact this

/-- When the streak stops below the fuel bound, the next earlier day
does not qualify. -/
theorem streakLoop_stop (monthOf : Int → Int) (data : Data) :
    ∀ (fuel : Nat) (d : Int), streakLoop monthOf data fuel d < fuel →
      qualifies monthOf data (d - (streakLoop monthOf data fuel d : Int)) = false := by
  intro fuel
  induction fuel with
  | zero => intro d hd; omega
  | succ n ih =>
    intro d hd
    unfold streakLoop at hd ⊢
    cases h : dayLookup monthOf data d with
    | none => simp [qualifies, h]
    | some day =>
      rw [h] at hd
      by_cases hp : day.progress < 50
      · have hnle : ¬ (50 ≤ day.progress) := by omega
        simp [hp, qualifies, h, hnle]
      · simp only [hp, if_false] at hd ⊢
        have hlt : streakLoop monthOf data n (d - 1) < n := by omega
        have := ih (d - 1) hlt
        have harith : d - ((streakLoop monthOf data n (d - 1) + 1 : Nat) : Int) =
            d - 1 - (streakLoop monthOf data n (d - 1) : Int) := by
          push_cast; ring
        rw [harith]
        exact this

/-- Claim C1 theorem (amended).  The derived streak is the count of
consecutive qualifying days walking back from yesterday, capped at 365:
it never exceeds 365, every day inside it has a record with progress at
least 50, and whenever the cap was not reached the day immediately
before the streak is missing or below 50. -/
theorem calculateStreak_spec (monthOf : Int → Int) (data : Data) (today : Int) :
    calculateStreak monthOf data today ≤ 365 ∧
    (∀ i : Nat, i < calculateStreak monthOf data today →
      qualifies monthOf data (today - 1 - (i : Int)) = true) ∧
    (calculateStreak monthOf data today < 365 →
      qualifies monthOf data
        (today - 1 - (calculateStreak monthOf data today : Int)) = false) := by
  refine ⟨streakLoop_le monthOf data 365 (today - 1), ?_, ?_⟩
  · intro i hi
    exact streakLoop_qualifies monthOf data 365 (today - 1) i hi
  · intro h
    exact streakLoop_stop monthOf data 365 (today - 1) h

set_option maxRecDepth 8000 in
/-- Counterexample to C1 as stated: with 366 consecutive fully
completed days ending yesterday, the code reports a streak of 365 while
the number of consecutive qualifying days preceding the current day is
at least 366 (every date 0..365 qualifies, checked exhaustively). -/
theorem calculateStreak_cap_cex :
    calculateStreak monthOf31 streakData366 366 = 365 ∧
    ((List.range 366).all fun i =>
      qualifies monthOf31 streakData366 ((365 : Int) - (i : Nat))) = true := by
  have hall : ((List.range 366).all fun i =>
      qualifies monthOf31 streakData366 ((365 : Int) - (i : Nat))) = true := by
    decide
  refine ⟨?_, hall⟩
  unfold calculateStreak
  by_contra hne
  have hle := streakLoop_le monthOf31 streakData366 365 (366 - 1)
  have hlt : streakLoop monthOf31 streakData366 365 (366 - 1) < 365 :=
    lt_of_le_of_ne hle hne
  have hfalse := streakLoop_stop monthOf31 streakData366 365 (366 - 1) hlt
  set s := streakLoop monthOf31 streakData366 365 (366 - 1) with hs
  have hmem : s ∈ List.range 366 := List.mem_range.mpr (by omega)
  have htrue := List.all_eq_true.mp hall s hmem
  have harith : (365 : Int) - (s : Nat) = 366 - 1 - (s : Int) := by ring
  rw [harith] at htrue
  rw [htrue] at hfalse
  simp at hfalse

/-- Witness for C1 at a small fixture: streak 1 (only date 4 has a
record), every streak day qualifies, and the day before it does not. -/
theorem calculateStreak_spec_witness :
    calculateStreak monthOf31 streakSmall 5 ≤ 365 ∧
    qualifies monthOf31 streakSmall (5 - 1 - ((0 : Nat) : Int)) = true ∧
    qualifies monthOf31 streakSmall
      (5 - 1 - ((calculateStreak monthOf31 streakSmall 5 : Nat) : Int)) = false :=
  ⟨(calculateStreak_spec monthOf31 streakSmall 5).1,
   (calculateStreak_spec monthOf31 streakSmall 5).2.1 0 (by decide),
   (calculateStreak_spec monthOf31 streakSmall 5).2.2 (by decide)⟩

/-- `editFirst` preserves the number of tasks. -/
theorem editFirst_length (taskId : Int) (upd : Task → Task) :
    ∀ ts : List Task, (editFirst taskId upd ts).length = ts.length := by
  intro ts
  induction ts with
  | nil => rfl
  | cons t rest ih =>
    by_cases h : t.id = taskId <;> simp [editFirst, h, ih]

/-- A completed-flag-preserving update keeps the completed count. -/
theorem editFirst_filter_completed (taskId : Int) (upd : Task → Task)
    (h : ∀ t, (upd t).completed = t.completed) :
    ∀ ts : List Task,
      ((editFirst taskId upd ts).filter (fun t => t.completed)).length =
        (ts.filter (fun t => t.completed)).length := by
  intro ts
  induction ts with
  | nil => rfl
  | cons t rest ih =>
    by_cases hid : t.id = taskId
    · simp only [editFirst, hid, if_true, List.filter_cons, h t]
      cases hc : t.completed <;> simp [hc]
    · simp only [editFirst, hid, if_false, List.filter_cons]
      cases hc : t.completed <;> simp [hc, ih]

/-- Day progress is unchanged by a completed-flag-preserving edit. -/
theorem calculateProgress_editFirst (taskId : Int) (upd : Task → Task)
    (h : ∀ t, (upd t).completed = t.completed) (ts : List Task) :
    calculateProgress (editFirst taskId upd ts) = calculateProgress ts := by
  unfold calculateProgress
  rw [editFirst_length taskId upd ts, editFirst_filter_completed taskId upd h ts]

/-- Writing one day record with consistent progress into one month
record preserves the stored-progress invariant. -/
theorem progInv_setWrite {data : Data} (month : Int) (m : MonthRec)
    (date : Int) (d2 : DayRec) (hinv : progInv data)
    (hm : lookupA data month = some m ∨ m = initMonthData)
    (hd2 : d2.progress = calculateProgress d2.tasks) :
    progInv (setA data month { m with days := setA m.days date d2 }) := by
  have hdays : ∀ q ∈ m.days, q.2.progress = calculateProgress q.2.tasks := by
    rcases hm with hm | rfl
    · exact fun q hq => hinv (month, m) (lookupA_mem hm) q hq
    · intro q hq; simp [initMonthData] at hq
  intro p hp
  rcases mem_setA p hp with hpm | hpm
  · subst hpm
    intro q hq
    rcases mem_setA q hq with hqd | hqd
    · subst hqd; exact hd2
    · exact hdays q hqd
  · exact hinv p hpm

/-- `addTask` preserves the stored-progress invariant. -/
theorem progInv_addTask (monthOf : Int → Int) (now : Int)
    (taskName category : String) (date : Int) {data : Data}
    (hinv : progInv data) :
    progInv (addTask monthOf now taskName category date data) := by
  unfold addTask
  by_cases hlock :
      ((lookupA ((lookupA data (monthOf date)).getD initMonthData).days date).getD
        initDayData).locked = true
  · simp only [hlock, if_true]; exact hinv
  · simp only [hlock, if_false, Bool.false_eq_true]
    refine progInv_setWrite (monthOf date) _ date _ hinv ?_ rfl
    cases hlm : lookupA data (monthOf date) with
    | none => exact Or.inr rfl
    | some m0 => exact Or.inl rfl

/-- `toggleTask` preserves the stored-progress invariant. -/
theorem progInv_toggleTask (monthOf : Int → Int) (now taskId date : Int)
    {data : Data} (hinv : progInv data) :
    progInv (toggleTask monthOf now taskId date data) := by
  unfold toggleTask
  dsimp only
  cases hlm : lookupA data (monthOf date) with
  | none => exact hinv
  | some m =>
    dsimp only
    cases hld : lookupA m.days date with
    | none => exact hinv
    | some d =>
      dsimp only
      by_cases hlock : d.locked = true
      · simp only [hlock, if_true]; exact hinv
      · simp only [hlock, Bool.false_eq_true, if_false]
        by_cases hfind : (d.tasks.find? (fun t => t.id == taskId)).isSome = true
        · simp only [hfind, if_true]
          apply progInv_setWrite (monthOf date) m date _ hinv (Or.inl hlm)
          rfl
        · simp only [hfind, if_false]
          exact hinv

/-- `editTask` preserves the stored-progress invariant when the update
does not change any task's completed flag. -/
theorem progInv_editTask (monthOf : Int → Int) (taskId : Int)
    (upd : Task → Task) (date : Int)
    (hP : ∀ t, (upd t).completed = t.completed) {data : Data}
    (hinv : progInv data) :
    progInv (editTask monthOf taskId upd date data) := by
  unfold editTask
  dsimp only
  cases hlm : lookupA data (monthOf date) with
  | none => exact hinv
  | some m =>
    dsimp only
    cases hld : lookupA m.days date with
    | none => exact hinv
    | some d =>
      dsimp only
      by_cases hlock : d.locked = true
      · simp only [hlock, if_true]; exact hinv
      · simp only [hlock, Bool.false_eq_true, if_false]
        have hd : d.progress = calculateProgress d.tasks :=
          hinv (monthOf date, m) (lookupA_mem hlm) (date, d) (lookupA_mem hld)
        apply progInv_setWrite (monthOf date) m date _ hinv (Or.inl hlm)
        show d.progress = calculateProgress (editFirst taskId upd d.tasks)
        rw [calculateProgress_editFirst taskId upd hP d.tasks]
        exact hd

/-- `deleteTask` preserves the stored-progress invariant. -/
theorem progInv_deleteTask (monthOf : Int → Int) (taskId date : Int)
    {data : Data} (hinv : progInv data) :
    progInv (deleteTask monthOf taskId date data) := by
  unfold deleteTask
  dsimp only
  cases hlm : lookupA data (monthOf date) with
  | none => exact hinv
  | some m =>
    dsimp only
    cases hld : lookupA m.days date with
    | none => exact hinv
    | some d =>
      dsimp only
      by_cases hlock : d.locked = true
      · simp only [hlock, if_true]; exact hinv
      · simp only [hlock, Bool.false_eq_true, if_false]
        apply progInv_setWrite (monthOf date) m date _ hinv (Or.inl hlm)
        rfl

/-- `lockDay` preserves the stored-progress invariant. -/
theorem progInv_lockDay (monthOf : Int → Int) (now dateStr : Int)
    {data : Data} (hinv : progInv data) :
    progInv (lockDay monthOf now dateStr data) := by
  unfold lockDay
  dsimp only
  cases hlm : lookupA data (monthOf dateStr) with
  | none => exact hinv
  | some m =>
    dsimp only
    cases hld : lookupA m.days dateStr with
    | none => exact hinv
    | some d =>
      dsimp only
      by_cases hlock : d.locked = true
      · simp only [hlock, if_true]; exact hinv
      · simp only [hlock, Bool.false_eq_true, if_false]
        apply progInv_setWrite (monthOf dateStr) m dateStr _ hinv (Or.inl hlm)
        rfl

/-- Claim C4 theorem (amended).  In every data state reachable from the
empty record through `addTask`, `toggleTask`, `deleteTask`, `lockDay`,
and `editTask` restricted to updates preserving each task's completed
flag, every day record's stored progress equals `calculateProgress` of
its task list.  (Unrestricted `editTask` breaks the invariant — see the
counterexample.) -/
theorem progress_invariant_reachable (monthOf : Int → Int) {data : Data}
    (h : Reach monthOf (fun upd => ∀ t, (upd t).completed = t.completed) data) :
    progInv data := by
  induction h with
  | init => intro p hp; cases hp
  | step_add now taskName category date _ ih =>
    exact progInv_addTask monthOf now taskName category date ih
  | step_toggle now taskId date _ ih =>
    exact progInv_toggleTask monthOf now taskId date ih
  | step_edit taskId upd date hP _ ih =>
    exact progInv_editTask monthOf taskId upd date hP ih
  | step_delete taskId date _ ih =>
    exact progInv_deleteTask monthOf taskId date ih
  | step_lock now dateStr _ ih =>
    exact progInv_lockDay monthOf now dateStr ih

/-- Counterexample to C4 as stated: the two-step state that adds one
task on date 5 and then marks it completed through `editTask` is
reachable by the claimed operations, yet its stored progress (0)
differs from `calculateProgress` of its task list (100), because
`editTask` does not recompute `day.progress`. -/
theorem progress_invariant_cex :
    Reach (fun _ => (0 : Int)) (fun _ => True)
      (editTask (fun _ => 0) 1 (fun t => { t with completed := true }) 5
        (addTask (fun _ => 0) 1 "a" "other" 5 [])) ∧
    ¬ progInv (editTask (fun _ => 0) 1 (fun t => { t with completed := true }) 5
        (addTask (fun _ => 0) 1 "a" "other" 5 [])) :=
  ⟨Reach.step_edit 1 _ 5 True.intro (Reach.step_add 1 "a" "other" 5 Reach.init),
   by decide⟩

/-- Witness for the amended C4 at a concrete one-step reachable state. -/
theorem progress_invariant_witness :
    progInv (addTask (fun _ => (0 : Int)) 1 "a" "other" 5 []) :=
  progress_invariant_reachable (fun _ => 0)
    (Reach.step_add 1 "a" "other" 5 Reach.init)

/-- Key membership after an assignment. -/
theorem mem_keys_setA {β : Type} {l : List (Int × β)} {key j : Int} {val : β} :
    j ∈ (setA l key val).map Prod.fst ↔ j = key ∨ j ∈ l.map Prod.fst := by
  induction l with
  | nil => simp [setA]
  | cons q rest ih =>
    obtain ⟨k, v⟩ := q
    by_cases hk : k = key
    · subst hk
      have hset : setA ((k, v) :: rest) k val = (k, val) :: rest := by
        simp [setA]
      rw [hset]
      simp only [List.map_cons, List.mem_cons]
      tauto
    · have hset : setA ((k, v) :: rest) key val = (k, v) :: setA rest key val := by
        simp [setA, hk]
      rw [hset]
      simp only [List.map_cons, List.mem_cons, ih]
      tauto

/-- Assignment preserves distinctness of the keys. -/
theorem nodup_keys_setA {β : Type} {l : List (Int × β)} (key : Int) (val : β)
    (h : (l.map Prod.fst).Nodup) : ((setA l key val).map Prod.fst).Nodup := by
  induction l with
  | nil => simp [setA]
  | cons q rest ih =>
    obtain ⟨k, v⟩ := q
    simp only [List.map_cons, List.nodup_cons] at h
    by_cases hk : k = key
    · subst hk
      have hset : setA ((k, v) :: rest) k val = (k, val) :: rest := by
        simp [setA]
      rw [hset]
      simp only [List.map_cons, List.nodup_cons]
      exact h
    · have hset : setA ((k, v) :: rest) key val = (k, v) :: setA rest key val := by
        simp [setA, hk]
      rw [hset]
      simp only [List.map_cons, List.nodup_cons]
      refine ⟨?_, ih h.2⟩
      intro hmem
      rcases mem_keys_setA.mp hmem with h1 | h1
      · exact hk h1
      · exact h.1 h1

/-- The inner heatmap loop: a date found in the processed days reads
back its cell; any other date falls through to the accumulator. -/
theorem lookupA_heatmapDays (days : List (Int × DayRec)) :
    ∀ (acc : List (Int × HeatEntry)) (date : Int),
      (days.map Prod.fst).Nodup →
      lookupA (heatmapDays acc days) date =
        (match lookupA days date with
         | some d => some (heatmapEntry d)
         | none => lookupA acc date) := by
  induction days with
  | nil => intro acc date _; simp [heatmapDays, lookupA]
  | cons q rest ih =>
    obtain ⟨dt, d⟩ := q
    intro acc date h
    simp only [List.map_cons, List.nodup_cons] at h
    rw [heatmapDays, ih (setA acc dt (heatmapEntry d)) date h.2]
    by_cases hdt : dt = date
    · subst hdt
      have hnone : lookupA rest dt = none := lookupA_eq_none_iff.mpr h.1
      rw [hnone]
      simp [lookupA, lookupA_setA]
    · cases hr : lookupA rest date with
      | some d0 => simp [lookupA, hdt, hr]
      | none => simp [lookupA, hdt, hr, lookupA_setA, Ne.symm hdt]

/-- The inner heatmap loop preserves key distinctness. -/
theorem nodup_keys_heatmapDays (days : List (Int × DayRec)) :
    ∀ acc : List (Int × HeatEntry), (acc.map Prod.fst).Nodup →
      ((heatmapDays acc days).map Prod.fst).Nodup := by
  induction days with
  | nil => intro acc h; exact h
  | cons q rest ih =>
    obtain ⟨dt, d⟩ := q
    intro acc h
    exact ih _ (nodup_keys_setA dt (heatmapEntry d) h)

/-- A found day record's date occurs among the stored date keys. -/
theorem findDayGlobal_mem {date : Int} {d : DayRec} :
    ∀ {data : Data}, findDayGlobal data date = some d → date ∈ allDates data := by
  intro data
  induction data with
  | nil => intro h; simp [findDayGlobal] at h
  | cons q rest ih =>
    obtain ⟨mk, m⟩ := q
    intro h
    rw [findDayGlobal] at h
    cases hm : lookupA m.days date with
    | some d0 =>
      have hmem : date ∈ m.days.map Prod.fst :=
        List.mem_map_of_mem Prod.fst (lookupA_mem hm)
      simp [allDates, hmem]
    | none =>
      rw [hm] at h
      simp only [allDates, List.mem_append]
      exact Or.inr (ih h)

/-- The outer heatmap loop: a date with a stored day record reads back
that record's cell; any other date falls through to the accumulator. -/
theorem lookupA_heatmapMonths (data : Data) :
    ∀ (acc : List (Int × HeatEntry)) (date : Int), (allDates data).Nodup →
      lookupA (heatmapMonths acc data) date =
        (match findDayGlobal data date with
         | some d => some (heatmapEntry d)
         | none => lookupA acc date) := by
  induction data with
  | nil => intro acc date _; simp [heatmapMonths, findDayGlobal]
  | cons q rest ih =>
    obtain ⟨mk, m⟩ := q
    intro acc date h
    rw [allDates, List.nodup_append] at h
    obtain ⟨hdnd, hrnd, hdisj⟩ := h
    rw [heatmapMonths, findDayGlobal, ih (heatmapDays acc m.days) date hrnd]
    cases hm : lookupA m.days date with
    | some d0 =>
      have hmem : date ∈ m.days.map Prod.fst :=
        List.mem_map_of_mem Prod.fst (lookupA_mem hm)
      have hnotin : date ∉ allDates rest := fun hc => hdisj hmem hc
      have hnone : findDayGlobal rest date = none := by
        cases hfg : findDayGlobal rest date with
        | none => rfl
        | some dd => exact absurd (findDayGlobal_mem hfg) hnotin
      rw [hnone, lookupA_heatmapDays m.days acc date hdnd, hm]
    | none =>
      cases hfg : findDayGlobal rest date with
      | some dd => rfl
      | none => rw [lookupA_heatmapDays m.days acc date hdnd, hm]

/-- The outer heatmap loop preserves key distinctness. -/
theorem nodup_keys_heatmapMonths (data : Data) :
    ∀ acc : List (Int × HeatEntry), (acc.map Prod.fst).Nodup →
      ((heatmapMonths acc data).map Prod.fst).Nodup := by
  induction data with
  | nil => intro acc h; exact h
  | cons q rest ih =>
    obtain ⟨mk, m⟩ := q
    intro acc h
    exact ih _ (nodup_keys_heatmapDays m.days acc h)

/-- Claim C5 theorem.  For a data state whose date keys are globally
distinct, the heatmap has exactly one entry per date key appearing in
any month record's days map — its keys are distinct and looking one up
returns exactly the cell of the day record stored for that date
(progress, task count, completed count, lock flag) — and no entry for a
date with no day record. -/
theorem heatmapData_spec (data : Data) (h : (allDates data).Nodup) :
    ((heatmapData data).map Prod.fst).Nodup ∧
    ∀ date : Int, lookupA (heatmapData data) date =
      (findDayGlobal data date).map heatmapEntry := by
  constructor
  · exact nodup_keys_heatmapMonths data [] (by simp)
  · intro date
    rw [heatmapData, lookupA_heatmapMonths data [] date h]
    cases findDayGlobal data date <;> simp [lookupA]

/-- Witness for C5 on a two-month fixture. -/
theorem heatmapData_spec_witness :
    lookupA (heatmapData exHeat) 1 = some (heatmapEntry exDayOpen) ∧
    ((heatmapData exHeat).map Prod.fst).Nodup := by
  have h := heatmapData_spec exHeat (by decide)
  refine ⟨?_, h.1⟩
  rw [h.2 1]
  rfl

/-- Half-up natural rounding is the rational floor of `x + 1/2`. -/
theorem jsRound_eq_floor (num den : Nat) (h : 0 < den) :
    jsRound num den = ⌊(num : ℚ) / den + 1 / 2⌋₊ := by
  have hden : (den : ℚ) ≠ 0 := Nat.cast_ne_zero.mpr h.ne'
  have hq : (num : ℚ) / den + 1 / 2
      = ((2 * num + den : ℕ) : ℚ) / ((2 * den : ℕ) : ℚ) := by
    push_cast
    field_simp
    ring
  rw [jsRound, hq, Nat.floor_div_eq_div]

/-- The progress reduce equals the mapped sum. -/
theorem foldl_progress_sum (l : List DayRec) :
    ∀ a : Nat, l.foldl (fun sum d => sum + d.progress) a
      = a + (l.map DayRec.progress).sum := by
  induction l with
  | nil => intro a; simp
  | cons d rest ih =>
    intro a
    simp only [List.foldl_cons, ih (a + d.progress), List.map_cons, List.sum_cons]
    omega

/-- Claim C6 theorem.  The derived month progress equals the rounded
(half-up, rational) arithmetic mean of the stored progress values over
exactly the month's day records with a non-empty task list, and 0 when
no month record exists or no day has tasks. -/
theorem monthProgress_eq_spec (data : Data) (currentMonth : Int) :
    monthProgress data currentMonth = monthProgressSpec data currentMonth := by
  unfold monthProgress monthProgressSpec
  cases hlm : lookupA data currentMonth with
  | none => rfl
  | some monthData =>
    dsimp only
    have hfe : (monthData.days.map Prod.snd).filter
          (fun d => decide (0 < d.tasks.length))
        = (monthData.days.map Prod.snd).filter (fun d => decide (d.tasks ≠ [])) := by
      apply List.filter_congr
      intro d _
      cases htl : d.tasks with
      | nil => simp [htl]
      | cons t ts => simp [htl]
    rw [hfe]
    set ds := (monthData.days.map Prod.snd).filter (fun d => decide (d.tasks ≠ []))
      with hds
    by_cases hlen : ds.length = 0
    · have hnil : ds = [] := List.length_eq_zero.mp hlen
      simp [hlen, hnil]
    · have hpos : 0 < ds.length := Nat.pos_of_ne_zero hlen
      have hne : ds.map DayRec.progress ≠ [] := by
        intro hc
        apply hlen
        simpa using congrArg List.length hc
      rw [if_neg hlen, if_neg hne, foldl_progress_sum ds 0,
        jsRound_eq_floor _ _ hpos]
      simp [List.length_map]

/-- One clamped goal-progress write: the shared shape of
`updateGoalProgress` and `setGoalProgress`, with `f` producing the raw
new value for the targeted goal. -/
theorem goalOutcome_clamped (goals : List Goal) (goalId : Int) (f : Goal → Int)
    (htgt : ∀ g ∈ goals, g.id = goalId → 0 ≤ g.progressTarget) :
    goalListOutcome goalId goals
      (goals.map fun g =>
        if g.id ≠ goalId then g
        else
          let newProgress := min g.progressTarget (max 0 (f g))
          let newState :=
            if g.progressTarget ≤ newProgress then "completed" else g.state
          { g with progressCurrent := newProgress, state := newState }) := by
  constructor
  · simp
  · intro i h1 h2
    rw [List.get_map]
    have hmem : goals.get ⟨i, h1⟩ ∈ goals := List.get_mem goals i h1
    set g := goals.get ⟨i, h1⟩ with hgdef
    constructor
    · intro hne
      simp [hne]
    · intro hid
      have h0 : 0 ≤ g.progressTarget := htgt g hmem hid
      have hnotne : ¬ g.id ≠ goalId := fun hc => hc hid
      simp only [hnotne, if_false]
      refine ⟨by trivial, by trivial, ?_, ?_, ?_⟩
      · exact le_min h0 (le_max_left 0 (f g))
      · exact min_le_left _ _
      · by_cases hc : min g.progressTarget (max 0 (f g)) = g.progressTarget
        · simp [hc]
        · have hnle : ¬ g.progressTarget ≤ min g.progressTarget (max 0 (f g)) :=
            fun hge => hc (le_antisymm (min_le_left _ _) hge)
          simp [hc, hnle]

/-- Claim C9 theorem (amended).  Provided the targeted goal's
`progressTarget` is nonnegative, `updateGoalProgress` and
`setGoalProgress` leave every other goal untouched and give the
targeted goal a `progressCurrent` clamped into `[0, progressTarget]`,
marking it `completed` exactly when the progress reaches the target and
keeping its previous state otherwise. -/
theorem goalProgress_spec (goals : List Goal) (goalId amount value : Int)
    (htgt : ∀ g ∈ goals, g.id = goalId → 0 ≤ g.progressTarget) :
    goalListOutcome goalId goals (updateGoalProgress goalId amount goals) ∧
    goalListOutcome goalId goals (setGoalProgress goalId value goals) :=
  ⟨goalOutcome_clamped goals goalId (fun g => g.progressCurrent + amount) htgt,
   goalOutcome_clamped goals goalId (fun _ => value) htgt⟩

/-- Counterexample to C9 as stated: for a goal whose `progressTarget`
is -1 (reachable, since `updateGoal` applies arbitrary field updates),
`updateGoalProgress` clamps the progress to -1, which does not lie
between 0 and the target. -/
theorem goalProgress_cex :
    ((updateGoalProgress 1 0 [gNeg]).headD gNeg).progressCurrent = -1 ∧
    ¬ (0 ≤ ((updateGoalProgress 1 0 [gNeg]).headD gNeg).progressCurrent) := by
  decide

/-- Witness for the amended C9 on a well-formed goal. -/
theorem goalProgress_spec_witness :
    goalListOutcome 2 [gPos] (updateGoalProgress 2 4 [gPos]) ∧
    goalListOutcome 2 [gPos] (setGoalProgress 2 4 [gPos]) :=
  goalProgress_spec [gPos] 2 4 4 (by decide)

/-- Under all-non-null elements the original filter count succeeds and
agrees with the hardened filter count. -/
theorem countCompletedOrig_ok (tasks : List (Option Task))
    (h : ∀ t ∈ tasks, t ≠ none) :
    countCompletedOrig tasks =
      Except.ok ((tasks.filter (fun t => match t with
        | some u => u.completed
        | none => false)).length) := by
  induction tasks with
  | nil => rfl
  | cons t rest ih =>
    cases t with
    | none => exact absurd rfl (h none (List.mem_cons_self _ _))
    | some u =>
      have hrest : ∀ t ∈ rest, t ≠ none := fun t ht => h t (List.mem_cons_of_mem _ ht)
      rw [countCompletedOrig, ih hrest]
      cases hc : u.completed <;> simp [List.filter_cons, hc, Except.map]

/-- Claim C10 theorem.  On task arrays whose elements are all non-null
objects with a boolean completed field, the original `calculateProgress`
returns normally and agrees with the hardened variant. -/
theorem calculateProgress_equiv (tasks : List (Option Task))
    (h : ∀ t ∈ tasks, t ≠ none) :
    calculateProgressOrig tasks = Except.ok (calculateProgressHardened tasks) := by
  unfold calculateProgressOrig calculateProgressHardened
  by_cases hlen : tasks.length = 0
  · simp [hlen]
  · simp only [hlen, if_false]
    rw [countCompletedOrig_ok tasks h]
    rfl

/-- Witness for C10 on a concrete two-task array. -/
theorem calculateProgress_equiv_witness :
    calculateProgressOrig [some exTaskDone, some exTaskOpen] =
      Except.ok (calculateProgressHardened [some exTaskDone, some exTaskOpen]) :=
  calculateProgress_equiv [some exTaskDone, some exTaskOpen] (by decide)

end PD
